import Mathlib

/-!
Verification of `src/qiskit_qec/circuits/surface_code.py` (class `SurfaceCodeCircuit`).

The Python code works on space-separated result strings.  We embed Python strings as
`List Char` and reproduce the string primitives the source uses:

* `pysplit`    — Python `s.split(" ")` (single-space separator, keeps empty fields);
* `pyjoinSp`   — Python `" ".join(l)`;
* `pygetD`     — Python indexing `l[i]` including negative indices
                 (`l[-t]` is `l[len(l) - t]`); an out-of-range access, which raises
                 `IndexError` in Python, is totalized with an explicit default that
                 is never hit under the well-formedness hypotheses of the theorems;
* `everyOther` — Python stride-2 slicing `l[::2]`;
* `pyint`      — Python `int(c)` on a digit character;
* `digitChar`  — Python `str(n)` for `n < 10`.

Integer arithmetic: Python `%` on ints is `Int.emod` (which is Lean's `%` on `Int`),
and Python `int((d**2 - 1)/2)` truncates toward zero, i.e. `Int.tdiv`.
-/

/-- Python `s.split(" ")`: split on every single space, keeping empty fields
(`"".split(" ") = [""]`). -/
def pysplit : List Char → List (List Char)
  | [] => [[]]
  | c :: rest =>
    if c = ' ' then [] :: pysplit rest
    else (c :: (pysplit rest).headD []) :: (pysplit rest).tail

/-- Python `" ".join(l)`. -/
def pyjoinSp : List (List Char) → List Char
  | [] => []
  | [f] => f
  | f :: g :: fs => f ++ ' ' :: pyjoinSp (g :: fs)

/-- Python `l[::2]`: the elements at even positions. -/
def everyOther : List α → List α
  | [] => []
  | [a] => [a]
  | a :: _ :: rest => a :: everyOther rest

/-- Python indexing `l[i]` with support for negative indices, totalized with a
default for the out-of-range case (which raises `IndexError` in Python). -/
def pygetD (l : List α) (i : Int) (dflt : α) : α :=
  let k : Int := if 0 ≤ i then i else (l.length : Int) + i
  if 0 ≤ k then (l[k.toNat]?).getD dflt else dflt

/-- Python `int(c)` for a digit character (`int('0') = 0`, `int('1') = 1`, ...);
a non-digit character raises in Python and is out of contract here. -/
def pyint (c : Char) : Nat := c.toNat - 48

/-- Python `str(n)` for a single digit `n < 10`. -/
def digitChar (n : Nat) : Char := Char.ofNat (48 + n)

/-- The character appended by `"0" * (not change) + "1" * change` in the source. -/
def boolChar (b : Bool) : Char := if b then '1' else '0'

/-- Python `v in range(n)` for an integer `v`. -/
def inR (v n : Int) : Bool := decide (0 ≤ v) && decide (v < n)

/-- Python `range(a, b)` as a list of integers. -/
def pyrange (a b : Int) : List Int := (List.range (b - a).toNat).map (fun (i : Nat) => a + (i : Int))

/-!
Section: `_get_plaquettes` (surface_code.py lines 112-145)

The double loop `for y in range(-1, d): for x in range(-1, d)` seeds a plaquette at
`(x, y)` iff the guard on line 131 holds; the four row-major corners of the 2x2 block
are collected (line 133-138, `None` outside the lattice), and the plaquette goes to
`xplaqs` with corner order `[0,1,2,3]` when `(x+y) % 2 == 0`, else to `zplaqs` with
corner order `[0,2,1,3]` (lines 140-143).
-/

/-- The seed coordinates `(x, y)` visited by the double loop, in loop order
(`y` outer, `x` inner). -/
def seeds (d : Int) : List (Int × Int) :=
  (pyrange (-1) d).flatMap (fun y => (pyrange (-1) d).map (fun x => (x, y)))

/-- Line 127-131: `bulk`, `ztab`, `xtab` and the seeding guard. -/
def seedOK (d x y : Int) : Bool :=
  let bulk := inR x (d - 1) && inR y (d - 1)
  let ztab := (decide (x = -1) && decide (y % 2 = 0)) || (decide (x = d - 1) && decide (y % 2 = 1))
  let xtab := (decide (y = -1) && decide (x % 2 = 1)) || (decide (y = d - 1) && decide (x % 2 = 0))
  (inR x (d - 1) || inR y (d - 1)) && (bulk || ztab || xtab)

/-- Line 140: checkerboard parity `(x + y) % 2 == 0` selects an X plaquette. -/
def isX (x y : Int) : Bool := decide ((x + y) % 2 = 0)

/-- Lines 132-138: the 2x2 block of qubit indices at seed `(x, y)`, row-major
(`dy` outer, `dx` inner), `none` for corners outside the lattice. -/
def corners (d x y : Int) : List (Option Int) :=
  (List.range 2).flatMap (fun (dy : Nat) => (List.range 2).map (fun (dx : Nat) =>
    if inR (x + (dx : Int)) d && inR (y + (dy : Int)) d
    then some (x + (dx : Int) + d * (y + (dy : Int))) else none))

/-- Line 141: the corner order `[plaq[0], plaq[1], plaq[2], plaq[3]]` used for X plaquettes. -/
def permX (l : List (Option Int)) : List (Option Int) :=
  [pygetD l 0 none, pygetD l 1 none, pygetD l 2 none, pygetD l 3 none]

/-- Line 143: the corner order `[plaq[0], plaq[2], plaq[1], plaq[3]]` used for Z plaquettes. -/
def permZ (l : List (Option Int)) : List (Option Int) :=
  [pygetD l 0 none, pygetD l 2 none, pygetD l 1 none, pygetD l 3 none]

/-- The seeds classified as X plaquettes, in loop order. -/
def xseeds (d : Int) : List (Int × Int) :=
  (seeds d).filter (fun p => seedOK d p.1 p.2 && isX p.1 p.2)

/-- The seeds classified as Z plaquettes, in loop order. -/
def zseeds (d : Int) : List (Int × Int) :=
  (seeds d).filter (fun p => seedOK d p.1 p.2 && !(isX p.1 p.2))

/-- The list `xplaqs` as returned by `_get_plaquettes`. -/
def xplaqs (d : Int) : List (List (Option Int)) :=
  (xseeds d).map (fun p => permX (corners d p.1 p.2))

/-- The list `zplaqs` as returned by `_get_plaquettes`. -/
def zplaqs (d : Int) : List (List (Option Int)) :=
  (zseeds d).map (fun p => permZ (corners d p.1 p.2))

/-!
Section: logical operator supports (surface_code.py lines 63-69)
-/

/-- Line 65: `self._logicals["x"][0] = [j * d for j in range(d)]` (left column). -/
def logicalX0 (d : Int) : List Int := (List.range d.toNat).map (fun (j : Nat) => (j : Int) * d)

/-- Line 66: `self._logicals["x"][1] = [(j + 1) * d - 1 for j in range(d)]` (right column). -/
def logicalX1 (d : Int) : List Int := (List.range d.toNat).map (fun (j : Nat) => ((j : Int) + 1) * d - 1)

/-- Line 68: `self._logicals["z"][0] = [j for j in range(d)]` (top row). -/
def logicalZ0 (d : Int) : List Int := (List.range d.toNat).map (fun (j : Nat) => (j : Int))

/-- Line 69: `self._logicals["z"][1] = [d**2 - 1 - j for j in range(d)]` (bottom row). -/
def logicalZ1 (d : Int) : List Int := (List.range d.toNat).map (fun (j : Nat) => d ^ 2 - 1 - (j : Int))

/-!
Section: the configuration of a `SurfaceCodeCircuit`

`d`, `T`, `basis`, `resets` as stored by `__init__`.  The decoding methods below are
parameterized by this configuration exactly as the Python methods read `self.d`,
`self.T`, `self.basis`, `self._resets`.
-/

structure SurfaceCode where
  d : Nat
  T : Nat
  basis : String
  resets : Bool

/-- Line 271-274: the plaquette collection inspected by `_string2changes`
(`zplaqs` when the local `basis` — set to `self.basis` on line 267 — is `"z"`,
else `xplaqs`). -/
def plaqsOf (c : SurfaceCode) : List (List (Option Int)) :=
  if c.basis = "z" then zplaqs (c.d : Int) else xplaqs (c.d : Int)

/-- Lines 277-280: the parity over the present qubits of one plaquette, read from the
(already reversed) final readout. -/
def plaqParity (fr : List Char) (plaq : List (Option Int)) : Nat :=
  plaq.foldl (fun parity q =>
    match q with
    | none => parity
    | some qi => parity + pyint (pygetD fr qi 'E')) 0

/-- Lines 269-281: the first field of `full_syndrome`, deduced from the final code-qubit
readout.  Each plaquette's parity character is *prepended* (`full_syndrome =
str(parity % 2) + full_syndrome`). -/
def finalSyn (c : SurfaceCode) (s : List Char) : List Char :=
  let fr := (pygetD (pysplit s) 0 ([] : List Char)).reverse
  (plaqsOf c).foldl (fun acc plaq => digitChar (plaqParity fr plaq % 2) :: acc) []

/-- Lines 284-287: the ancilla-round fields appended to `full_syndrome`:
`string.split(" ")[2::2]` for basis `"z"`, `string.split(" ")[1::2]` otherwise. -/
def selectedFields (c : SurfaceCode) (s : List Char) : List (List Char) :=
  if c.basis = "z" then everyOther ((pysplit s).drop 2) else everyOther ((pysplit s).drop 1)

/-- Lines 275-287: `full_syndrome` as a single string. -/
def fullSyndrome (c : SurfaceCode) (s : List Char) : List Char :=
  finalSyn c s ++ ' ' :: pyjoinSp (selectedFields c s)

/-- Line 290: `syndrome_list = full_syndrome.split(" ")`. -/
def syndromeList (c : SurfaceCode) (s : List Char) : List (List Char) :=
  pysplit (fullSyndrome c s)

/-- Reading `syndrome_list[i][j]`, with Python negative indexing on the round index. -/
def synAt (sl : List (List Char)) (i : Int) (j : Nat) : Char :=
  pygetD (pygetD sl i ([] : List Char)) (j : Int) 'E'

/-- Line 292: `width = len(syndrome_list[0])`. -/
def synWidth (c : SurfaceCode) (s : List Char) : Nat :=
  (pygetD (syndromeList c s) 0 ([] : List Char)).length

/-- Lines 296-315: the single detection character for round `t` and stabilizer `j`. -/
def changeBit (c : SurfaceCode) (sl : List (List Char)) (t j : Nat) : Char :=
  if c.resets then
    if t = 0 then boolChar (synAt sl (-1) j != '0')
    else boolChar (synAt sl (-(t : Int)) j != synAt sl (-(t : Int) - 1) j)
  else
    if t ≤ 1 then
      if t ≠ c.T then boolChar (synAt sl (-(t : Int) - 1) j != '0')
      else boolChar (synAt sl (-(t : Int) - 1) j != synAt sl (-(t : Int)) j)
    else if t = c.T then
      boolChar (decide (List.count '1'
        [synAt sl (-(t : Int) - 1) j, synAt sl (-(t : Int) - 1 + 1) j,
         synAt sl (-(t : Int) - 1 + 2) j] % 2 = 1))
    else boolChar (synAt sl (-(t : Int) - 1) j != synAt sl (-(t : Int) + 1) j)

/-- Lines 294-316: the per-round detection strings, one row per `t in range(height)`,
one character per `j in range(width)`. -/
def changeRows (c : SurfaceCode) (s : List Char) : List (List Char) :=
  (List.range (syndromeList c s).length).map (fun t =>
    (List.range (synWidth c s)).map (fun j => changeBit c (syndromeList c s) t j))

/-- The method `_string2changes` (lines 265-323).  The flat string is built row by row with a
trailing space per row, then the last character is stripped (line 317).  Line 319
compares the local `basis` — set to `self.basis` on line 267 — with `self.basis`,
so the trim branch is syntactically present but can never be taken. -/
def string2changes (c : SurfaceCode) (s : List Char) : List Char :=
  let joined := ((changeRows c s).flatMap (fun row => row ++ [' '])).dropLast
  if c.basis ≠ c.basis then pyjoinSp (((pysplit joined).drop 1).dropLast) else joined

/-- The method `string2raw_logicals` (lines 325-348). -/
def string2raw_logicals (c : SurfaceCode) (s : List Char) : List Char :=
  let fr := (pygetD (pysplit s) 0 ([] : List Char)).reverse
  let Z := (List.range c.d).foldl (fun (Z : Nat × Nat) (j : Nat) =>
    if c.basis = "z" then
      ((Z.1 + pyint (pygetD fr (j : Int) 'E')) % 2,
       (Z.2 + pyint (pygetD fr ((c.d : Int) ^ 2 - 1 - (j : Int)) 'E')) % 2)
    else
      ((Z.1 + pyint (pygetD fr ((j : Int) * (c.d : Int)) 'E')) % 2,
       (Z.2 + pyint (pygetD fr (((j : Int) + 1) * (c.d : Int) - 1) 'E')) % 2)) (0, 0)
  [digitChar Z.1, ' ', digitChar Z.2]

/-- A well-formed shot string for a configuration: the final-readout field followed by
`2 T` alternating per-round ancilla fields (so `1 + 2 T` space-separated fields in
total), for a circuit that has at least one syndrome-measurement round (`T = 0`
builds a circuit with no measurements at all, hence no shot strings). -/
def WellFormed (c : SurfaceCode) (s : List Char) : Prop :=
  (pysplit s).length = 1 + 2 * c.T ∧ 1 ≤ c.T

/-!
Section: `__init__` (surface_code.py lines 36-110)

The constructor stores the configuration, computes the plaquettes, the logical
supports, the CSS operator lists and the register sizes, and emits the circuits.
It contains no validation and no `raise`: every computation below is total, and the
register sizes handed to the external circuit-builder collaborator (`d**2` and
`int((d**2-1)/2)`) are nonnegative for every integer `d`, so the collaborator calls
cannot fail either.  We model the constructor as an `Except` so that the
spec's "fails fast with a configuration error" is statable; faithfully to the
source, no input reaches an error. -/
structure InitState where
  d : Int
  T : Int
  basis : String
  resets : Bool
  zplaqList : List (List (Option Int))
  xplaqList : List (List (Option Int))
  logicalsX : List (List Int)
  logicalsZ : List (List Int)
  css_x_gauge_ops : List (List Int)
  css_z_gauge_ops : List (List Int)
  num_xy : Int
  numCodeQubits : Int

/-- Line 84: `self._num_xy = int((d**2 - 1) / 2)` — Python `int()` truncates toward
zero, i.e. `Int.tdiv`. -/
def num_xy (d : Int) : Int := Int.tdiv (d ^ 2 - 1) 2

/-- The computation performed by `SurfaceCodeCircuit.__init__` on the state in scope of
this spec (the gate emission against the opaque circuit builder is out of scope). -/
def surfaceCodeInit (d T : Int) (basis : String) (resets : Bool) : Except String InitState :=
  let zp := zplaqs d
  let xp := xplaqs d
  Except.ok
    ⟨d, T, basis, resets, zp, xp,
     [logicalX0 d, logicalX1 d], [logicalZ0 d, logicalZ1 d],
     xp.map (List.filterMap id), zp.map (List.filterMap id),
     num_xy d, d ^ 2⟩

/-- Spec-side description of one corner of the row-major 2x2 block at seed `(x, y)`:
the qubit index `x + dx + d * (y + dy)` when inside the lattice, absent otherwise
(spec section 4.1). -/
def specCell (d x y dx dy : Int) : Option Int :=
  if 0 ≤ x + dx ∧ x + dx < d ∧ 0 ≤ y + dy ∧ y + dy < d
  then some (x + dx + d * (y + dy)) else none

/-!
Section: Lemmas about the Python string primitives
-/

theorem pysplit_ne_nil (s : List Char) : pysplit s ≠ [] := by
  cases s with
  | nil => simp [pysplit]
  | cons c rest => simp only [pysplit]; split <;> simp

theorem mem_pysplit_nospace (s : List Char) : ∀ f ∈ pysplit s, ' ' ∉ f := by
  induction s with
  | nil =>
    intro f hf
    simp only [pysplit, List.mem_singleton] at hf
    subst hf; simp
  | cons c rest ih =>
    intro f hf
    simp only [pysplit] at hf
    by_cases hc : c = ' '
    · rw [if_pos hc] at hf
      rcases List.mem_cons.mp hf with rfl | hf'
      · simp
      · exact ih f hf'
    · rw [if_neg hc] at hf
      rcases List.mem_cons.mp hf with rfl | hf'
      · intro hmem
        rcases List.mem_cons.mp hmem with h' | h'
        · exact hc h'.symm
        · cases h : pysplit rest with
          | nil => rw [h] at h'; simp at h'
          | cons g gs =>
            rw [h] at h'
            exact ih g (by rw [h]; exact List.mem_cons_self g gs) (by simpa using h')
      · exact ih f (List.mem_of_mem_tail hf')

theorem pysplit_nospace (a : List Char) (ha : ' ' ∉ a) : pysplit a = [a] := by
  induction a with
  | nil => rfl
  | cons c rest ih =>
    have hc : c ≠ ' ' := fun h => ha (by rw [h]; exact List.mem_cons_self _ _)
    have hr : ' ' ∉ rest := fun h => ha (List.mem_cons_of_mem _ h)
    simp only [pysplit, ih hr]
    rw [if_neg (fun h => hc h)]
    simp

theorem pysplit_append (a r : List Char) (ha : ' ' ∉ a) :
    pysplit (a ++ ' ' :: r) = a :: pysplit r := by
  induction a with
  | nil => simp [pysplit]
  | cons c a' ih =>
    have hc : c ≠ ' ' := fun h => ha (by rw [h]; exact List.mem_cons_self _ _)
    have ha' : ' ' ∉ a' := fun h => ha (List.mem_cons_of_mem _ h)
    simp only [List.cons_append, pysplit, List.append_eq]
    rw [ih ha', if_neg (fun h => hc h)]
    simp

theorem pysplit_pyjoinSp (l : List (List Char)) (hne : l ≠ [])
    (hf : ∀ f ∈ l, ' ' ∉ f) : pysplit (pyjoinSp l) = l := by
  induction l with
  | nil => exact absurd rfl hne
  | cons f fs ih =>
    cases fs with
    | nil => exact pysplit_nospace f (hf f (List.mem_cons_self _ _))
    | cons g gs =>
      have h1 : pysplit (pyjoinSp (g :: gs)) = g :: gs :=
        ih (by simp) (fun x hx => hf x (List.mem_cons_of_mem f hx))
      simp only [pyjoinSp]
      rw [pysplit_append f _ (hf f (List.mem_cons_self _ _)), h1]

theorem flatMapSp_eq (l : List (List Char)) (hne : l ≠ []) :
    l.flatMap (fun r => r ++ [' ']) = pyjoinSp l ++ [' '] := by
  induction l with
  | nil => exact absurd rfl hne
  | cons f fs ih =>
    cases fs with
    | nil => simp [pyjoinSp]
    | cons g gs =>
      simp only [List.flatMap_cons] at ih ⊢
      rw [ih (by simp)]
      simp [pyjoinSp]

theorem everyOther_length : ∀ (l : List α), (everyOther l).length = (l.length + 1) / 2
  | [] => by simp [everyOther]
  | [_] => by simp [everyOther]
  | _ :: _ :: rest => by
    simp only [everyOther, List.length_cons, everyOther_length rest]
    omega

theorem mem_everyOther : ∀ (l : List α) (a : α), a ∈ everyOther l → a ∈ l
  | [], _, h => by simp [everyOther] at h
  | [_], _, h => by simpa [everyOther] using h
  | b :: c :: rest, a, h => by
    simp only [everyOther, List.mem_cons] at h ⊢
    rcases h with h | h
    · exact Or.inl h
    · exact Or.inr (Or.inr (mem_everyOther rest a h))

theorem pygetD_natCast (l : List α) (n : Nat) (dflt : α) :
    pygetD l (n : Int) dflt = (l[n]?).getD dflt := by
  simp [pygetD]

theorem pygetD_map_range (f : Nat → α) (n t : Nat) (ht : t < n) (dflt : α) :
    pygetD ((List.range n).map f) (t : Int) dflt = f t := by
  rw [pygetD_natCast]
  simp [List.getElem?_map, List.getElem?_range ht]

/-!
Section: Structure of the output of `_string2changes`
-/

theorem boolChar_ne_space (b : Bool) : boolChar b ≠ ' ' := by cases b <;> decide

theorem boolChar_eq_one (b : Bool) : boolChar b = '1' ↔ b = true := by cases b <;> decide

theorem changeBit_ne_space (c : SurfaceCode) (sl : List (List Char)) (t j : Nat) :
    changeBit c sl t j ≠ ' ' := by
  unfold changeBit
  split_ifs <;> apply boolChar_ne_space

theorem changeRows_ne_nil (c : SurfaceCode) (s : List Char) : changeRows c s ≠ [] := by
  have h := pysplit_ne_nil (fullSyndrome c s)
  simp only [changeRows, ne_eq, List.map_eq_nil_iff, List.range_eq_nil]
  intro h0
  exact h (List.eq_nil_of_length_eq_zero h0)

theorem mem_changeRows_nospace (c : SurfaceCode) (s : List Char) :
    ∀ row ∈ changeRows c s, ' ' ∉ row := by
  intro row hrow
  simp only [changeRows, List.mem_map, List.mem_range] at hrow
  obtain ⟨t, _, rfl⟩ := hrow
  intro hmem
  simp only [List.mem_map, List.mem_range] at hmem
  obtain ⟨j, _, hj⟩ := hmem
  exact changeBit_ne_space c (syndromeList c s) t j hj

/-- Splitting the output of `_string2changes` back on spaces recovers exactly the
per-round detection strings (the trim branch on line 319 compares `self.basis` with
itself and is never taken). -/
theorem pysplit_string2changes (c : SurfaceCode) (s : List Char) :
    pysplit (string2changes c s) = changeRows c s := by
  unfold string2changes
  rw [if_neg (fun h => h rfl)]
  rw [flatMapSp_eq _ (changeRows_ne_nil c s), List.dropLast_concat]
  exact pysplit_pyjoinSp _ (changeRows_ne_nil c s) (mem_changeRows_nospace c s)

/-!
Section: The assembled `syndrome_list`
-/

theorem digitChar_mod_two_ne_space (n : Nat) : digitChar (n % 2) ≠ ' ' := by
  rcases Nat.mod_two_eq_zero_or_one n with h | h <;> rw [h] <;> decide

theorem foldl_cons_length (f : α → β) (l : List α) (acc : List β) :
    (l.foldl (fun a p => f p :: a) acc).length = l.length + acc.length := by
  induction l generalizing acc with
  | nil => simp
  | cons p l ih =>
    simp only [List.foldl_cons, ih, List.length_cons]
    omega

theorem foldl_cons_mem (f : α → β) (l : List α) (acc : List β) (b : β)
    (hb : b ∈ l.foldl (fun a p => f p :: a) acc) : (∃ p, b = f p) ∨ b ∈ acc := by
  induction l generalizing acc with
  | nil => exact Or.inr hb
  | cons p l ih =>
    rcases ih (f p :: acc) hb with h | h
    · exact Or.inl h
    · rcases List.mem_cons.mp h with rfl | h'
      · exact Or.inl ⟨p, rfl⟩
      · exact Or.inr h'

theorem finalSyn_length (c : SurfaceCode) (s : List Char) :
    (finalSyn c s).length = (plaqsOf c).length := by
  unfold finalSyn
  rw [foldl_cons_length]
  simp

theorem finalSyn_nospace (c : SurfaceCode) (s : List Char) : ' ' ∉ finalSyn c s := by
  intro h
  rcases foldl_cons_mem _ _ _ _ h with ⟨p, hp⟩ | h'
  · exact digitChar_mod_two_ne_space _ hp.symm
  · simp at h'

theorem selectedFields_nospace (c : SurfaceCode) (s : List Char) :
    ∀ f ∈ selectedFields c s, ' ' ∉ f := by
  intro f hf
  unfold selectedFields at hf
  split_ifs at hf <;>
    exact mem_pysplit_nospace s f (List.mem_of_mem_drop (mem_everyOther _ f hf))

theorem syndromeList_eq (c : SurfaceCode) (s : List Char)
    (hne : selectedFields c s ≠ []) :
    syndromeList c s = finalSyn c s :: selectedFields c s := by
  unfold syndromeList fullSyndrome
  rw [pysplit_append _ _ (finalSyn_nospace c s),
    pysplit_pyjoinSp _ hne (selectedFields_nospace c s)]

theorem selectedFields_length (c : SurfaceCode) (s : List Char) (h : WellFormed c s) :
    (selectedFields c s).length = c.T := by
  obtain ⟨hlen, hT⟩ := h
  unfold selectedFields
  split_ifs <;> rw [everyOther_length, List.length_drop, hlen] <;> omega

theorem syndromeList_length (c : SurfaceCode) (s : List Char) (h : WellFormed c s) :
    (syndromeList c s).length = c.T + 1 := by
  have hT := h.2
  have hsel := selectedFields_length c s h
  have hne : selectedFields c s ≠ [] := by
    intro h0
    rw [h0] at hsel
    simp at hsel
    omega
  rw [syndromeList_eq c s hne, List.length_cons, hsel]

theorem synWidth_eq (c : SurfaceCode) (s : List Char) :
    synWidth c s = (plaqsOf c).length := by
  unfold synWidth syndromeList fullSyndrome
  rw [pysplit_append _ _ (finalSyn_nospace c s)]
  simp [pygetD, finalSyn_length]

/-!
Section: Claims C4 and C5: number of rounds in the detection record
-/

/-- Claim C4: with `resets = True` and a well-formed shot string of `T` rounds, the
detection record returned by `_string2changes` consists of exactly `T + 1`
space-separated round-strings. -/
theorem claim4_record_length (c : SurfaceCode) (s : List Char)
    (hres : c.resets = true) (h : WellFormed c s) :
    (pysplit (string2changes c s)).length = c.T + 1 := by
  rw [pysplit_string2changes]
  simp [changeRows, syndromeList_length c s h]

/-- Witness for C4: a concrete `d = 3`, `T = 2`, `basis = "z"`, `resets = True`
configuration and shot string. -/
theorem claim4_record_length_witness :
    (SurfaceCode.mk 3 2 "z" true).resets = true ∧
    WellFormed (SurfaceCode.mk 3 2 "z" true) ("010000000 0000 0010 0000 0000").toList ∧
    (pysplit (string2changes (SurfaceCode.mk 3 2 "z" true)
      ("010000000 0000 0010 0000 0000").toList)).length = (SurfaceCode.mk 3 2 "z" true).T + 1 :=
  ⟨rfl, by constructor <;> decide,
   claim4_record_length _ _ rfl (by constructor <;> decide)⟩

/-- Counterexample for C5 as stated: with `resets = False` (`d = 3`, `T = 2`,
well-formed shot string) the record has `T + 1 = 3` rounds, not `T - 1 = 1`:
the trim branch of line 319 never fires because line 267 sets the inspected
basis equal to the preparation basis. -/
theorem claim5_counterexample :
    (SurfaceCode.mk 3 2 "z" false).resets = false ∧
    WellFormed (SurfaceCode.mk 3 2 "z" false) ("000000000 0000 0000 0000 0000").toList ∧
    (pysplit (string2changes (SurfaceCode.mk 3 2 "z" false)
      ("000000000 0000 0000 0000 0000").toList)).length = 3 ∧
    ¬ (pysplit (string2changes (SurfaceCode.mk 3 2 "z" false)
      ("000000000 0000 0000 0000 0000").toList)).length = (SurfaceCode.mk 3 2 "z" false).T - 1 := by
  refine ⟨rfl, by constructor <;> decide, by decide, by decide⟩

/-- Claim C5 amended: `_string2changes` never trims the record — the basis inspected
during decoding is always set equal to the preparation basis (line 267), so the
condition `basis != self.basis` of line 319 is never true; with `resets = False` and a
well-formed shot string of `T` rounds the returned record has exactly `T + 1`
space-separated round-strings, not `T - 1`. -/
theorem claim5_no_trim (c : SurfaceCode) (s : List Char)
    (hres : c.resets = false) (h : WellFormed c s) :
    (pysplit (string2changes c s)).length = c.T + 1 := by
  rw [pysplit_string2changes]
  simp [changeRows, syndromeList_length c s h]

/-- Witness for the amended C5. -/
theorem claim5_no_trim_witness :
    (SurfaceCode.mk 3 2 "z" false).resets = false ∧
    WellFormed (SurfaceCode.mk 3 2 "z" false) ("000000000 0000 0100 0000 0000").toList ∧
    (pysplit (string2changes (SurfaceCode.mk 3 2 "z" false)
      ("000000000 0000 0100 0000 0000").toList)).length = (SurfaceCode.mk 3 2 "z" false).T + 1 :=
  ⟨rfl, by constructor <;> decide,
   claim5_no_trim _ _ rfl (by constructor <;> decide)⟩

/-!
Section: Claim C3: width of the round-strings
-/

/-- Counterexample for C3 as stated: for `d = 2`, `basis = "x"`, `T = 1`, each
round-string of the detection record has length `1`, the size of the X-plaquette
collection (the basis *equal* to the preparation basis), while the collection of the
*opposite* basis has `2` plaquettes. -/
theorem claim3_counterexample :
    WellFormed (SurfaceCode.mk 2 1 "x" true) ("0000 0 0").toList ∧
    (pysplit (string2changes (SurfaceCode.mk 2 1 "x" true) ("0000 0 0").toList)).map
      List.length = [1, 1] ∧
    (zplaqs 2).length = 2 ∧ (xplaqs 2).length = 1 := by
  refine ⟨by constructor <;> decide, by decide, by decide, by decide⟩

/-- Claim C3 amended: each per-round binary string in the detection record produced by
`_string2changes` has length equal to the number of plaquettes of the basis *equal* to
the preparation basis (the collection the decoder inspects, line 271-274); for odd `d`
this coincides with the opposite-basis count, but not for even `d`. -/
theorem claim3_round_width (c : SurfaceCode) (s : List Char) (h : WellFormed c s) :
    ∀ row ∈ pysplit (string2changes c s), row.length = (plaqsOf c).length := by
  rw [pysplit_string2changes]
  intro row hrow
  simp only [changeRows, List.mem_map, List.mem_range] at hrow
  obtain ⟨t, _, rfl⟩ := hrow
  simp [synWidth_eq]

/-- Witness for the amended C3. -/
theorem claim3_round_width_witness :
    WellFormed (SurfaceCode.mk 3 1 "x" true) ("000000000 0000 0000").toList ∧
    ("0000").toList ∈ pysplit (string2changes (SurfaceCode.mk 3 1 "x" true)
      ("000000000 0000 0000").toList) ∧
    ("0000").toList.length = (plaqsOf (SurfaceCode.mk 3 1 "x" true)).length :=
  ⟨by constructor <;> decide,
   by decide,
   claim3_round_width (SurfaceCode.mk 3 1 "x" true) ("000000000 0000 0000").toList
     (by constructor <;> decide) ("0000").toList (by decide)⟩


/-!
Section: Claim C1: the detection-bit regimes
-/

/-- Claim C1: for a well-formed shot string and stabilizer index `j`, the detection bit
of round `t` in the record returned by `_string2changes` follows the regimes:
with resets, at `t = 0` the bit is `1` iff `syndrome_list[-1][j] != '0'`, and for
`t > 0` it is `1` iff `syndrome_list[-t][j] != syndrome_list[-t-1][j]`; without
resets, for every middle round `1 < t < T` it is `1` iff
`syndrome_list[-t-1][j] != syndrome_list[-t+1][j]`. -/
theorem claim1_detection_regimes (c : SurfaceCode) (s : List Char) (h : WellFormed c s)
    (t j : Nat) (ht : t < c.T + 1) (hj : j < synWidth c s) :
    (c.resets = true →
      (t = 0 →
        (pygetD (pygetD (pysplit (string2changes c s)) (t : Int) ([] : List Char))
            (j : Int) 'E' = '1' ↔
          synAt (syndromeList c s) (-1) j ≠ '0')) ∧
      (0 < t →
        (pygetD (pygetD (pysplit (string2changes c s)) (t : Int) ([] : List Char))
            (j : Int) 'E' = '1' ↔
          synAt (syndromeList c s) (-(t : Int)) j ≠
            synAt (syndromeList c s) (-(t : Int) - 1) j))) ∧
    (c.resets = false → 1 < t → t < c.T →
      (pygetD (pygetD (pysplit (string2changes c s)) (t : Int) ([] : List Char))
          (j : Int) 'E' = '1' ↔
        synAt (syndromeList c s) (-(t : Int) - 1) j ≠
          synAt (syndromeList c s) (-(t : Int) + 1) j)) := by
  have hbit : pygetD (pygetD (pysplit (string2changes c s)) (t : Int) ([] : List Char))
      (j : Int) 'E' = changeBit c (syndromeList c s) t j := by
    rw [pysplit_string2changes]
    unfold changeRows
    rw [pygetD_map_range _ _ t (by rw [syndromeList_length c s h]; exact ht)]
    rw [pygetD_map_range _ _ j hj]
  rw [hbit]
  refine ⟨fun hres => ⟨fun ht0 => ?_, fun htpos => ?_⟩, fun hres h1 h2 => ?_⟩
  · subst ht0
    simp [changeBit, hres, boolChar_eq_one, bne_iff_ne]
  · have ht0 : ¬ (t = 0) := by omega
    simp [changeBit, hres, ht0, boolChar_eq_one, bne_iff_ne]
  · have hta : ¬ (t ≤ 1) := by omega
    have htb : ¬ (t = c.T) := by omega
    simp [changeBit, hres, hta, htb, boolChar_eq_one, bne_iff_ne]

/-- Witness for C1 at `d = 3`, `T = 2`, `basis = "z"`, `resets = True`, round `t = 1`,
stabilizer `j = 0`. -/
theorem claim1_detection_regimes_witness :
    WellFormed (SurfaceCode.mk 3 2 "z" true) ("010000000 0000 0010 0000 0000").toList ∧
    (1 : Nat) < (SurfaceCode.mk 3 2 "z" true).T + 1 ∧
    (0 : Nat) < synWidth (SurfaceCode.mk 3 2 "z" true) ("010000000 0000 0010 0000 0000").toList ∧
    (((SurfaceCode.mk 3 2 "z" true).resets = true →
      ((1 : Nat) = 0 →
        (pygetD (pygetD (pysplit (string2changes (SurfaceCode.mk 3 2 "z" true)
            ("010000000 0000 0010 0000 0000").toList)) (((1 : Nat)) : Int) ([] : List Char))
            (((0 : Nat)) : Int) 'E' = '1' ↔
          synAt (syndromeList (SurfaceCode.mk 3 2 "z" true)
            ("010000000 0000 0010 0000 0000").toList) (-1) 0 ≠ '0')) ∧
      (0 < (1 : Nat) →
        (pygetD (pygetD (pysplit (string2changes (SurfaceCode.mk 3 2 "z" true)
            ("010000000 0000 0010 0000 0000").toList)) (((1 : Nat)) : Int) ([] : List Char))
            (((0 : Nat)) : Int) 'E' = '1' ↔
          synAt (syndromeList (SurfaceCode.mk 3 2 "z" true)
            ("010000000 0000 0010 0000 0000").toList) (-((1 : Nat) : Int)) 0 ≠
            synAt (syndromeList (SurfaceCode.mk 3 2 "z" true)
              ("010000000 0000 0010 0000 0000").toList) (-((1 : Nat) : Int) - 1) 0))) ∧
    ((SurfaceCode.mk 3 2 "z" true).resets = false → 1 < (1 : Nat) →
        (1 : Nat) < (SurfaceCode.mk 3 2 "z" true).T →
      (pygetD (pygetD (pysplit (string2changes (SurfaceCode.mk 3 2 "z" true)
          ("010000000 0000 0010 0000 0000").toList)) (((1 : Nat)) : Int) ([] : List Char))
          (((0 : Nat)) : Int) 'E' = '1' ↔
        synAt (syndromeList (SurfaceCode.mk 3 2 "z" true)
          ("010000000 0000 0010 0000 0000").toList) (-((1 : Nat) : Int) - 1) 0 ≠
          synAt (syndromeList (SurfaceCode.mk 3 2 "z" true)
            ("010000000 0000 0010 0000 0000").toList) (-((1 : Nat) : Int) + 1) 0))) :=
  ⟨by constructor <;> decide, by decide, by decide,
   claim1_detection_regimes (SurfaceCode.mk 3 2 "z" true)
     ("010000000 0000 0010 0000 0000").toList (by constructor <;> decide) 1 0
     (by decide) (by decide)⟩

/-!
Section: Claim C8: raw logical values
-/

theorem foldl_pair_mod (f g : Nat → Nat) (n : Nat) (a b : Nat) :
    (List.range n).foldl (fun Z j => ((Z.1 + f j) % 2, (Z.2 + g j) % 2)) (a % 2, b % 2)
      = ((a + ((List.range n).map f).sum) % 2, (b + ((List.range n).map g).sum) % 2) := by
  induction n with
  | zero => simp
  | succ n ih =>
    rw [List.range_succ, List.foldl_append, ih, List.map_append, List.map_append]
    simp only [List.foldl_cons, List.foldl_nil, List.map_cons, List.map_nil,
      List.sum_append, List.sum_cons, List.sum_nil, Prod.mk.injEq]
    constructor <;> omega

/-- Claim C8: `string2raw_logicals` returns the two raw logical bits `"v0 v1"`:
after reversing the first space-separated field, for basis `"z"` the bits are the
mod-2 sums of the readout over the top row (`j`) and the bottom row (`d^2 - 1 - j`);
for basis `"x"` they are the mod-2 sums over the left column (`j * d`) and the right
column (`(j + 1) * d - 1`). -/
theorem claim8_raw_logicals (c : SurfaceCode) (s : List Char) :
    (c.basis = "z" →
      string2raw_logicals c s =
        [digitChar (((List.range c.d).map (fun (j : Nat) =>
            pyint (pygetD ((pygetD (pysplit s) 0 ([] : List Char)).reverse)
              (j : Int) 'E'))).sum % 2),
         ' ',
         digitChar (((List.range c.d).map (fun (j : Nat) =>
            pyint (pygetD ((pygetD (pysplit s) 0 ([] : List Char)).reverse)
              ((c.d : Int) ^ 2 - 1 - (j : Int)) 'E'))).sum % 2)]) ∧
    (c.basis = "x" →
      string2raw_logicals c s =
        [digitChar (((List.range c.d).map (fun (j : Nat) =>
            pyint (pygetD ((pygetD (pysplit s) 0 ([] : List Char)).reverse)
              ((j : Int) * (c.d : Int)) 'E'))).sum % 2),
         ' ',
         digitChar (((List.range c.d).map (fun (j : Nat) =>
            pyint (pygetD ((pygetD (pysplit s) 0 ([] : List Char)).reverse)
              (((j : Int) + 1) * (c.d : Int) - 1) 'E'))).sum % 2)]) := by
  constructor
  · intro hb
    simp only [string2raw_logicals, hb]
    have hfold := foldl_pair_mod
      (fun j => pyint (pygetD ((pygetD (pysplit s) 0 ([] : List Char)).reverse) (j : Int) 'E'))
      (fun j => pyint (pygetD ((pygetD (pysplit s) 0 ([] : List Char)).reverse)
        ((c.d : Int) ^ 2 - 1 - (j : Int)) 'E'))
      c.d 0 0
    simp only [Nat.zero_mod, Nat.zero_add] at hfold
    simp only [if_true, eq_self_iff_true, ite_true]
    rw [hfold]
  · intro hb
    simp only [string2raw_logicals, hb]
    have hfold := foldl_pair_mod
      (fun j => pyint (pygetD ((pygetD (pysplit s) 0 ([] : List Char)).reverse)
        ((j : Int) * (c.d : Int)) 'E'))
      (fun j => pyint (pygetD ((pygetD (pysplit s) 0 ([] : List Char)).reverse)
        (((j : Int) + 1) * (c.d : Int) - 1) 'E'))
      c.d 0 0
    simp only [Nat.zero_mod, Nat.zero_add] at hfold
    have hxz : ("x" = "z") = False := by simp
    simp only [hxz, if_false]
    rw [hfold]

/-- Witness for C8 at `d = 3`, `basis = "z"`. -/
theorem claim8_raw_logicals_witness :
    (SurfaceCode.mk 3 2 "z" true).basis = "z" ∧
    string2raw_logicals (SurfaceCode.mk 3 2 "z" true) ("010000000 0000 0010 0000 0000").toList =
      [digitChar (((List.range (SurfaceCode.mk 3 2 "z" true).d).map (fun (j : Nat) =>
          pyint (pygetD ((pygetD (pysplit ("010000000 0000 0010 0000 0000").toList) 0
            ([] : List Char)).reverse) (j : Int) 'E'))).sum % 2),
       ' ',
       digitChar (((List.range (SurfaceCode.mk 3 2 "z" true).d).map (fun (j : Nat) =>
          pyint (pygetD ((pygetD (pysplit ("010000000 0000 0010 0000 0000").toList) 0
            ([] : List Char)).reverse)
            (((SurfaceCode.mk 3 2 "z" true).d : Int) ^ 2 - 1 - (j : Int)) 'E'))).sum % 2)] :=
  ⟨rfl, (claim8_raw_logicals (SurfaceCode.mk 3 2 "z" true)
    ("010000000 0000 0010 0000 0000").toList).1 rfl⟩

/-!
Section: Claim C6: logical operator supports
-/

/-- Counterexample for C6 as stated: at `d = 1` the two supports of each basis are
*not* disjoint — all four supports equal `[0]`. -/
theorem claim6_counterexample :
    (0 : Int) ∈ logicalX0 1 ∧ (0 : Int) ∈ logicalX1 1 ∧
    ¬ (logicalX0 1).Disjoint (logicalX1 1) ∧
    (0 : Int) ∈ logicalZ0 1 ∧ (0 : Int) ∈ logicalZ1 1 ∧
    ¬ (logicalZ0 1).Disjoint (logicalZ1 1) :=
  ⟨by decide, by decide,
   fun hd => hd (show (0 : Int) ∈ logicalX0 1 by decide) (by decide),
   by decide, by decide,
   fun hd => hd (show (0 : Int) ∈ logicalZ0 1 by decide) (by decide)⟩

/-- Claim C6 amended: for every `d ≥ 1` each of the four logical-operator supports
contains exactly `d` qubit indices (no duplicates), and for every `d ≥ 2` the two
supports are disjoint per basis; at `d = 1` the two supports of each basis coincide. -/
theorem claim6_logicals (d : Nat) (hd : 1 ≤ d) :
    ((logicalX0 (d : Int)).length = d ∧ (logicalX1 (d : Int)).length = d ∧
     (logicalZ0 (d : Int)).length = d ∧ (logicalZ1 (d : Int)).length = d) ∧
    ((logicalX0 (d : Int)).Nodup ∧ (logicalX1 (d : Int)).Nodup ∧
     (logicalZ0 (d : Int)).Nodup ∧ (logicalZ1 (d : Int)).Nodup) ∧
    (2 ≤ d →
      (logicalX0 (d : Int)).Disjoint (logicalX1 (d : Int)) ∧
      (logicalZ0 (d : Int)).Disjoint (logicalZ1 (d : Int))) := by
  have hd0 : (0 : Int) < d := by exact_mod_cast hd
  refine ⟨?_, ?_, fun hd2 => ⟨?_, ?_⟩⟩
  · simp [logicalX0, logicalX1, logicalZ0, logicalZ1, Int.toNat_natCast]
  · refine ⟨?_, ?_, ?_, ?_⟩
    · apply List.Nodup.map _ (List.nodup_range _)
      intro a b hab
      exact_mod_cast mul_right_cancel₀ (by omega : (d : Int) ≠ 0) hab
    · apply List.Nodup.map _ (List.nodup_range _)
      intro a b hab
      have hab' : ((a : Int) + 1) * d - 1 = ((b : Int) + 1) * d - 1 := hab
      have h1 : ((a : Int) + 1) * d = ((b : Int) + 1) * d := by linarith
      have h2 : (a : Int) + 1 = (b : Int) + 1 := mul_right_cancel₀ (by omega) h1
      exact_mod_cast (by linarith : (a : Int) = b)
    · apply List.Nodup.map _ (List.nodup_range _)
      intro a b hab
      have hab' : ((a : Int)) = (b : Int) := hab
      exact_mod_cast hab'
    · apply List.Nodup.map _ (List.nodup_range _)
      intro a b hab
      have hab' : ((d : Int)) ^ 2 - 1 - a = ((d : Int)) ^ 2 - 1 - b := hab
      exact_mod_cast (by linarith : (a : Int) = b)
  · intro a h1 h2
    simp only [logicalX0, List.mem_map, List.mem_range, Int.toNat_natCast] at h1
    simp only [logicalX1, List.mem_map, List.mem_range, Int.toNat_natCast] at h2
    obtain ⟨j, hj, e1⟩ := h1
    obtain ⟨k, hk, e2⟩ := h2
    have hd1 : ((k : Int) + 1 - j) * d = 1 := by linear_combination e2 - e1
    have hdvd : (d : Int) ∣ 1 := by
      rw [mul_comm] at hd1
      exact ⟨_, hd1.symm⟩
    have hle := Int.le_of_dvd (by norm_num) hdvd
    have hd2' : (2 : Int) ≤ (d : Int) := by exact_mod_cast hd2
    omega
  · intro a h1 h2
    simp only [logicalZ0, List.mem_map, List.mem_range, Int.toNat_natCast] at h1
    simp only [logicalZ1, List.mem_map, List.mem_range, Int.toNat_natCast] at h2
    obtain ⟨j, hj, e1⟩ := h1
    obtain ⟨k, hk, e2⟩ := h2
    have hjd : (j : Int) < d := by exact_mod_cast hj
    have hkd : (k : Int) < d := by exact_mod_cast hk
    have hd2' : (2 : Int) ≤ (d : Int) := by exact_mod_cast hd2
    have hsq : ((d : Int)) ^ 2 = d * d := by ring
    have h2d : 2 * (d : Int) ≤ d * d := mul_le_mul_of_nonneg_right hd2' (by positivity)
    rw [hsq] at e2
    linarith [e1, e2, hjd, hkd, h2d]

/-- Witness for the amended C6 at `d = 3`. -/
theorem claim6_logicals_witness :
    (1 : Nat) ≤ 3 ∧
    (((logicalX0 ((3 : Nat) : Int)).length = 3 ∧ (logicalX1 ((3 : Nat) : Int)).length = 3 ∧
      (logicalZ0 ((3 : Nat) : Int)).length = 3 ∧ (logicalZ1 ((3 : Nat) : Int)).length = 3) ∧
     ((logicalX0 ((3 : Nat) : Int)).Nodup ∧ (logicalX1 ((3 : Nat) : Int)).Nodup ∧
      (logicalZ0 ((3 : Nat) : Int)).Nodup ∧ (logicalZ1 ((3 : Nat) : Int)).Nodup) ∧
     (2 ≤ (3 : Nat) →
       (logicalX0 ((3 : Nat) : Int)).Disjoint (logicalX1 ((3 : Nat) : Int)) ∧
       (logicalZ0 ((3 : Nat) : Int)).Disjoint (logicalZ1 ((3 : Nat) : Int)))) :=
  ⟨by norm_num, claim6_logicals 3 (by norm_num)⟩

/-!
Section: Claim C9: construction never fails
-/

/-- Counterexample for C9 as stated: constructing with invalid `d = 0` and invalid
`basis = "y"` does not fail — `__init__` performs no validation and contains no
`raise`, so the object is built. -/
theorem claim9_counterexample : (surfaceCodeInit 0 1 "y" true).isOk = true := rfl

/-- Claim C9 amended: construction never fails with a configuration error —
`__init__` accepts every `d`, `T`, `basis`, `resets` without validation (all its own
computations are total, and the register sizes `d**2` and `int((d**2-1)/2)` passed to
the external circuit builder are nonnegative for every integer `d`). -/
theorem claim9_no_validation (d T : Int) (basis : String) (resets : Bool) :
    (surfaceCodeInit d T basis resets).isOk = true := rfl

/-!
Section: Claim C7: classification and corner order of a seeded plaquette
-/

theorem mem_pyrange (a b v : Int) : v ∈ pyrange a b ↔ a ≤ v ∧ v < b := by
  unfold pyrange
  simp only [List.mem_map, List.mem_range]
  constructor
  · rintro ⟨i, hi, rfl⟩
    omega
  · rintro ⟨h1, h2⟩
    exact ⟨(v - a).toNat, by omega, by omega⟩

theorem mem_seeds (d x y : Int) :
    (x, y) ∈ seeds d ↔ (-1 ≤ x ∧ x < d) ∧ (-1 ≤ y ∧ y < d) := by
  unfold seeds
  simp only [List.mem_flatMap, List.mem_map, mem_pyrange, Prod.mk.injEq]
  constructor
  · rintro ⟨y', hy', x', hx', rfl, rfl⟩
    exact ⟨hx', hy'⟩
  · rintro ⟨hx, hy⟩
    exact ⟨y, hy, x, hx, rfl, rfl⟩

/-- Claim C7: a qualifying seed `(x, y)` is classified as X-type exactly when
`(x + y) % 2 == 0` and as Z-type otherwise, and its plaquette stores the corners of
the row-major 2x2 block under the fixed permutation `[0,1,2,3]` for X plaquettes and
`[0,2,1,3]` for Z plaquettes. -/
theorem claim7_classification (d : Nat) (hd : 1 ≤ d) (x y : Int)
    (hx1 : -1 ≤ x) (hx2 : x < (d : Int)) (hy1 : -1 ≤ y) (hy2 : y < (d : Int))
    (hOK : seedOK (d : Int) x y = true) :
    ((x + y) % 2 = 0 →
      (x, y) ∈ xseeds (d : Int) ∧ (x, y) ∉ zseeds (d : Int) ∧
      permX (corners (d : Int) x y) ∈ xplaqs (d : Int)) ∧
    ((x + y) % 2 ≠ 0 →
      (x, y) ∈ zseeds (d : Int) ∧ (x, y) ∉ xseeds (d : Int) ∧
      permZ (corners (d : Int) x y) ∈ zplaqs (d : Int)) ∧
    corners (d : Int) x y =
      [specCell (d : Int) x y 0 0, specCell (d : Int) x y 1 0,
       specCell (d : Int) x y 0 1, specCell (d : Int) x y 1 1] := by
  refine ⟨fun hpar => ?_, fun hpar => ?_, ?_⟩
  · have hmem : (x, y) ∈ xseeds (d : Int) := by
      rw [xseeds, List.mem_filter]
      exact ⟨(mem_seeds _ x y).mpr ⟨⟨hx1, hx2⟩, ⟨hy1, hy2⟩⟩, by simp [hOK, isX, hpar]⟩
    refine ⟨hmem, ?_, ?_⟩
    · rw [zseeds, List.mem_filter]
      rintro ⟨-, hpred⟩
      simp [isX, hpar, hOK] at hpred
    · rw [xplaqs]
      exact List.mem_map.mpr ⟨(x, y), hmem, rfl⟩
  · have hmem : (x, y) ∈ zseeds (d : Int) := by
      rw [zseeds, List.mem_filter]
      exact ⟨(mem_seeds _ x y).mpr ⟨⟨hx1, hx2⟩, ⟨hy1, hy2⟩⟩, by simp [hOK, isX, hpar]⟩
    refine ⟨hmem, ?_, ?_⟩
    · rw [xseeds, List.mem_filter]
      rintro ⟨-, hpred⟩
      simp [isX, hpar, hOK] at hpred
    · rw [zplaqs]
      exact List.mem_map.mpr ⟨(x, y), hmem, rfl⟩
  · have e1 : ∀ (dx dy : Nat),
        (if inR (x + (dx : Int)) (d : Int) && inR (y + (dy : Int)) (d : Int)
         then some (x + (dx : Int) + (d : Int) * (y + (dy : Int))) else none)
          = specCell (d : Int) x y (dx : Int) (dy : Int) := by
      intro dx dy
      simp only [specCell, inR, Bool.and_eq_true, decide_eq_true_eq]
      split_ifs <;> first | rfl | omega
    rw [corners, show List.range 2 = [0, 1] from rfl]
    simp only [List.flatMap_cons, List.flatMap_nil, List.map_cons, List.map_nil,
      List.append_nil, List.cons_append, List.nil_append]
    rw [e1 0 0, e1 1 0, e1 0 1, e1 1 1]
    norm_num

/-- Witness for C7 at `d = 3`, seed `(0, 0)` (an X plaquette). -/
theorem claim7_classification_witness :
    (1 : Nat) ≤ 3 ∧ seedOK ((3 : Nat) : Int) 0 0 = true ∧
    ((((0 : Int) + 0) % 2 = 0 →
      ((0 : Int), (0 : Int)) ∈ xseeds ((3 : Nat) : Int) ∧
      ((0 : Int), (0 : Int)) ∉ zseeds ((3 : Nat) : Int) ∧
      permX (corners ((3 : Nat) : Int) 0 0) ∈ xplaqs ((3 : Nat) : Int)) ∧
     (((0 : Int) + 0) % 2 ≠ 0 →
      ((0 : Int), (0 : Int)) ∈ zseeds ((3 : Nat) : Int) ∧
      ((0 : Int), (0 : Int)) ∉ xseeds ((3 : Nat) : Int) ∧
      permZ (corners ((3 : Nat) : Int) 0 0) ∈ zplaqs ((3 : Nat) : Int)) ∧
     corners ((3 : Nat) : Int) 0 0 =
       [specCell ((3 : Nat) : Int) 0 0 0 0, specCell ((3 : Nat) : Int) 0 0 1 0,
        specCell ((3 : Nat) : Int) 0 0 0 1, specCell ((3 : Nat) : Int) 0 0 1 1]) :=
  ⟨by norm_num, by decide,
   claim7_classification 3 (by norm_num) 0 0 (by norm_num) (by norm_num) (by norm_num)
     (by norm_num) (by decide)⟩

/-!
Section: Counting the plaquettes: claims C2 and C10

The two loops of `_get_plaquettes` are counted row by row: the row `y = -1` holds the
lower X-boundary plaquettes, the row `y = d - 1` the upper ones, and each middle row
`0 <= y <= d - 2` holds `d - 1` bulk seeds plus exactly one boundary seed (`x = -1`
when `y` is even, `x = d - 1` when `y` is odd).
-/

theorem countP_flatMap_eq (p : β → Bool) (f : α → List β) (l : List α) :
    List.countP p (l.flatMap f) = (l.map (fun a => List.countP p (f a))).sum := by
  induction l with
  | nil => simp
  | cons a l ih => simp [List.flatMap_cons, List.countP_append, ih]

theorem countP_seeds_eq (d : Int) (p : Int × Int → Bool) :
    List.countP p (seeds d)
      = ((pyrange (-1) d).map
          (fun y => List.countP (fun x => p (x, y)) (pyrange (-1) d))).sum := by
  unfold seeds
  rw [countP_flatMap_eq]
  apply congrArg
  apply List.map_congr_left
  intro y _
  rw [List.countP_map]
  rfl

theorem pyrange_natCast (m : Nat) :
    pyrange (-1) (m : Int) = (List.range (m + 1)).map (fun (k : Nat) => -1 + (k : Int)) := by
  unfold pyrange
  have h : ((m : Int) - (-1)).toNat = m + 1 := by omega
  rw [h]

theorem cnt_succ (p : Nat → Bool) (n : Nat) :
    List.countP p (List.range (n + 1))
      = List.countP p (List.range n) + (if p n then 1 else 0) := by
  rw [List.range_succ, List.countP_append, List.countP_singleton]

theorem cnt_range_restrict (p : Nat → Bool) (m : Nat) (hm : p m = false) :
    List.countP p (List.range (m + 1)) = List.countP p (List.range m) := by
  rw [cnt_succ, hm]
  simp

theorem cnt_lt (m n : Nat) :
    List.countP (fun i => decide (i < m)) (List.range n) = min n m := by
  induction n with
  | zero => simp
  | succ n ih =>
    rw [cnt_succ, ih]
    split_ifs with h <;> simp only [decide_eq_true_eq] at h <;> omega

theorem cnt_ge1 (n : Nat) :
    List.countP (fun i => decide (1 ≤ i)) (List.range n) = n - 1 := by
  induction n with
  | zero => simp
  | succ n ih =>
    rw [cnt_succ, ih]
    split_ifs with h <;> simp only [decide_eq_true_eq] at h <;> omega

theorem cnt_even2 (n : Nat) :
    List.countP (fun i => decide (i % 2 = 0 ∧ 2 ≤ i)) (List.range n) = (n - 1) / 2 := by
  induction n with
  | zero => simp
  | succ n ih =>
    rw [cnt_succ, ih]
    split_ifs with h <;> simp only [decide_eq_true_eq] at h <;> omega

theorem cnt_odd (n : Nat) :
    List.countP (fun i => decide (i % 2 = 1)) (List.range n) = n / 2 := by
  induction n with
  | zero => simp
  | succ n ih =>
    rw [cnt_succ, ih]
    split_ifs with h <;> simp only [decide_eq_true_eq] at h <;> omega

theorem cnt_eqv (n v : Nat) :
    List.countP (fun i => decide (i = v)) (List.range n) = if v < n then 1 else 0 := by
  induction n with
  | zero => simp
  | succ n ih =>
    rw [cnt_succ, ih]
    split_ifs with h1 h2 <;> simp only [decide_eq_true_eq] at * <;> omega

theorem countP_or_disjoint (p q : α → Bool) (l : List α)
    (h : ∀ a ∈ l, ¬(p a = true ∧ q a = true)) :
    List.countP (fun a => p a || q a) l = List.countP p l + List.countP q l := by
  induction l with
  | nil => simp
  | cons a l ih =>
    simp only [List.countP_cons, Bool.or_eq_true]
    rw [ih (fun b hb => h b (List.mem_cons_of_mem a hb))]
    have ha := h a (List.mem_cons_self a l)
    cases hp : p a <;> cases hq : q a <;> simp [hp, hq] at ha ⊢ <;> omega

theorem countP_partition (p q : α → Bool) (l : List α) :
    List.countP (fun a => p a && q a) l + List.countP (fun a => p a && !(q a)) l
      = List.countP p l := by
  induction l with
  | nil => simp
  | cons a l ih =>
    simp only [List.countP_cons]
    cases hp : p a <;> cases hq : q a <;> simp [hp, hq] <;> omega

theorem sum_range_two_ends (f : Nat → Nat) (n : Nat) :
    ((List.range (n + 2)).map f).sum
      = f 0 + ((List.range n).map (fun i => f (i + 1))).sum + f (n + 1) := by
  rw [List.range_succ, List.map_append, List.sum_append, List.range_succ_eq_map]
  simp only [List.map_cons, List.sum_cons, List.map_map, List.map_nil, List.sum_nil]
  have h : (f ∘ Nat.succ) = fun i => f (i + 1) := rfl
  rw [h]
  omega

/-- Row `y = -1` of the seed loop: only the lower X-boundary seeds qualify
(`x` odd, `0 <= x <= d - 2`). -/
theorem rowA_total (m : Nat) (hm : 1 ≤ m) (y : Int) (hy : y = -1) :
    List.countP (fun x => seedOK (m : Int) x y) (pyrange (-1) (m : Int)) = (m - 1) / 2 := by
  subst hy
  rw [pyrange_natCast, List.countP_map]
  have hc : ∀ i ∈ List.range (m + 1),
      ((fun x => seedOK (m : Int) x (-1)) ∘ fun (k : Nat) => -1 + (k : Int)) i = true ↔
      (fun i => decide (i % 2 = 0 ∧ 2 ≤ i ∧ i < m)) i = true := by
    intro i hi
    simp only [List.mem_range] at hi
    simp only [Function.comp_apply, seedOK, inR, isX, Bool.and_eq_true, Bool.or_eq_true,
      decide_eq_true_eq, show ((-1 : Int)) % 2 = 1 from by decide, true_and, and_true]
    omega
  rw [List.countP_congr hc,
    cnt_range_restrict (fun i => decide (i % 2 = 0 ∧ 2 ≤ i ∧ i < m)) m (by simp)]
  have hc2 : ∀ i ∈ List.range m,
      (fun i => decide (i % 2 = 0 ∧ 2 ≤ i ∧ i < m)) i = true ↔
      (fun i => decide (i % 2 = 0 ∧ 2 ≤ i)) i = true := by
    intro i hi
    simp only [List.mem_range] at hi
    simp only [decide_eq_true_eq]
    omega
  rw [List.countP_congr hc2, cnt_even2]

/-- Middle rows `0 <= y <= d - 2`: all `d - 1` bulk seeds qualify plus exactly one
boundary seed (`x = -1` for even `y`, `x = d - 1` for odd `y`). -/
theorem rowMid_total (m : Nat) (y : Int) (h0 : 0 ≤ y) (h1 : y ≤ (m : Int) - 2) :
    List.countP (fun x => seedOK (m : Int) x y) (pyrange (-1) (m : Int)) = m := by
  rw [pyrange_natCast, List.countP_map]
  rcases Int.emod_two_eq_zero_or_one y with hy | hy
  · have hc : ∀ i ∈ List.range (m + 1),
        ((fun x => seedOK (m : Int) x y) ∘ fun (k : Nat) => -1 + (k : Int)) i = true ↔
        (fun i => decide (i < m)) i = true := by
      intro i hi
      simp only [List.mem_range] at hi
      simp only [Function.comp_apply, seedOK, inR, isX, Bool.and_eq_true, Bool.or_eq_true,
        decide_eq_true_eq, show ((-1 : Int)) % 2 = 1 from by decide, true_and, and_true]
      omega
    rw [List.countP_congr hc, cnt_lt]
    omega
  · have hc : ∀ i ∈ List.range (m + 1),
        ((fun x => seedOK (m : Int) x y) ∘ fun (k : Nat) => -1 + (k : Int)) i = true ↔
        (fun i => decide (1 ≤ i)) i = true := by
      intro i hi
      simp only [List.mem_range] at hi
      simp only [Function.comp_apply, seedOK, inR, isX, Bool.and_eq_true, Bool.or_eq_true,
        decide_eq_true_eq, show ((-1 : Int)) % 2 = 1 from by decide, true_and, and_true]
      omega
    rw [List.countP_congr hc, cnt_ge1]
    omega

/-- Row `y = d - 1`: only the upper X-boundary seeds qualify (`x` even,
`0 <= x <= d - 2`). -/
theorem rowC_total (m : Nat) (hm : 1 ≤ m) (y : Int) (hy : y = (m : Int) - 1) :
    List.countP (fun x => seedOK (m : Int) x y) (pyrange (-1) (m : Int)) = m / 2 := by
  subst hy
  rw [pyrange_natCast, List.countP_map]
  have hc : ∀ i ∈ List.range (m + 1),
      ((fun x => seedOK (m : Int) x ((m : Int) - 1)) ∘ fun (k : Nat) => -1 + (k : Int)) i = true ↔
      (fun i => decide (i % 2 = 1 ∧ i < m)) i = true := by
    intro i hi
    simp only [List.mem_range] at hi
    simp only [Function.comp_apply, seedOK, inR, isX, Bool.and_eq_true, Bool.or_eq_true,
      decide_eq_true_eq, show ((-1 : Int)) % 2 = 1 from by decide, true_and, and_true]
    omega
  rw [List.countP_congr hc,
    cnt_range_restrict (fun i => decide (i % 2 = 1 ∧ i < m)) m (by simp)]
  have hc2 : ∀ i ∈ List.range m,
      (fun i => decide (i % 2 = 1 ∧ i < m)) i = true ↔
      (fun i => decide (i % 2 = 1)) i = true := by
    intro i hi
    simp only [List.mem_range] at hi
    simp only [decide_eq_true_eq]
    omega
  rw [List.countP_congr hc2, cnt_odd]

/-- Row `y = -1` contains no Z plaquette: its seeds have `x` odd, so `(x + y)` is even
and they are all X-type. -/
theorem rowA_z (m : Nat) (hm : 1 ≤ m) (y : Int) (hy : y = -1) :
    List.countP (fun x => seedOK (m : Int) x y && !(isX x y)) (pyrange (-1) (m : Int)) = 0 := by
  subst hy
  rw [pyrange_natCast, List.countP_map]
  apply List.countP_eq_zero.mpr
  intro i hi
  simp only [List.mem_range] at hi
  simp only [Function.comp_apply, seedOK, inR, isX, Bool.and_eq_true, Bool.or_eq_true,
    Bool.not_eq_true', decide_eq_false_iff_not, decide_eq_true_eq,
    show ((-1 : Int)) % 2 = 1 from by decide, true_and, and_true]
  omega

/-- For odd `d`, the row `y = d - 1` contains no Z plaquette: its seeds have `x` even
and `y` even, so they are all X-type. -/
theorem rowC_z (m : Nat) (hodd : m % 2 = 1) (y : Int) (hy : y = (m : Int) - 1) :
    List.countP (fun x => seedOK (m : Int) x y && !(isX x y)) (pyrange (-1) (m : Int)) = 0 := by
  subst hy
  rw [pyrange_natCast, List.countP_map]
  apply List.countP_eq_zero.mpr
  intro i hi
  simp only [List.mem_range] at hi
  simp only [Function.comp_apply, seedOK, inR, isX, Bool.and_eq_true, Bool.or_eq_true,
    Bool.not_eq_true', decide_eq_false_iff_not, decide_eq_true_eq,
    show ((-1 : Int)) % 2 = 1 from by decide, true_and, and_true]
  omega

/-- For odd `d`, each middle row `0 <= y <= d - 2` contains `(d - 1) / 2` bulk
Z plaquettes plus the one Z-boundary plaquette. -/
theorem rowMid_z (m : Nat) (hodd : m % 2 = 1) (y : Int) (h0 : 0 ≤ y) (h1 : y ≤ (m : Int) - 2) :
    List.countP (fun x => seedOK (m : Int) x y && !(isX x y)) (pyrange (-1) (m : Int))
      = (m - 1) / 2 + 1 := by
  rw [pyrange_natCast, List.countP_map]
  rcases Int.emod_two_eq_zero_or_one y with hy | hy
  · have hc : ∀ i ∈ List.range (m + 1),
        ((fun x => seedOK (m : Int) x y && !(isX x y)) ∘ fun (k : Nat) => -1 + (k : Int)) i
            = true ↔
        (fun i => decide (i = 0) || decide (i % 2 = 0 ∧ 2 ≤ i ∧ i < m)) i = true := by
      intro i hi
      simp only [List.mem_range] at hi
      simp only [Function.comp_apply, seedOK, inR, isX, Bool.and_eq_true, Bool.or_eq_true,
        Bool.not_eq_true', decide_eq_false_iff_not, decide_eq_true_eq,
        show ((-1 : Int)) % 2 = 1 from by decide, true_and, and_true]
      omega
    rw [List.countP_congr hc,
      countP_or_disjoint _ _ _ (by
        intro a _ hcontra
        simp only [decide_eq_true_eq] at hcontra
        omega),
      cnt_eqv,
      cnt_range_restrict (fun i => decide (i % 2 = 0 ∧ 2 ≤ i ∧ i < m)) m (by simp)]
    have hc2 : ∀ i ∈ List.range m,
        (fun i => decide (i % 2 = 0 ∧ 2 ≤ i ∧ i < m)) i = true ↔
        (fun i => decide (i % 2 = 0 ∧ 2 ≤ i)) i = true := by
      intro i hi
      simp only [List.mem_range] at hi
      simp only [decide_eq_true_eq]
      omega
    rw [List.countP_congr hc2, cnt_even2,
      if_pos (by omega : (0 : Nat) < m + 1)]
    omega
  · have hc : ∀ i ∈ List.range (m + 1),
        ((fun x => seedOK (m : Int) x y && !(isX x y)) ∘ fun (k : Nat) => -1 + (k : Int)) i
            = true ↔
        (fun i => decide (i = m) || decide (i % 2 = 1 ∧ i < m)) i = true := by
      intro i hi
      simp only [List.mem_range] at hi
      simp only [Function.comp_apply, seedOK, inR, isX, Bool.and_eq_true, Bool.or_eq_true,
        Bool.not_eq_true', decide_eq_false_iff_not, decide_eq_true_eq,
        show ((-1 : Int)) % 2 = 1 from by decide, true_and, and_true]
      omega
    rw [List.countP_congr hc,
      countP_or_disjoint _ _ _ (by
        intro a _ hcontra
        simp only [decide_eq_true_eq] at hcontra
        omega),
      cnt_eqv,
      cnt_range_restrict (fun i => decide (i % 2 = 1 ∧ i < m)) m (by simp)]
    have hc2 : ∀ i ∈ List.range m,
        (fun i => decide (i % 2 = 1 ∧ i < m)) i = true ↔
        (fun i => decide (i % 2 = 1)) i = true := by
      intro i hi
      simp only [List.mem_range] at hi
      simp only [decide_eq_true_eq]
      omega
    rw [List.countP_congr hc2, cnt_odd,
      if_pos (by omega : m < m + 1)]
    omega

/-- The outer `y` loop decomposed into the first row, the middle rows and the last
row. -/
theorem pyrange_split (m : Nat) (hm : 1 ≤ m) :
    pyrange (-1) (m : Int) = -1 :: pyrange 0 ((m : Int) - 1) ++ [(m : Int) - 1] := by
  obtain ⟨n, rfl⟩ : ∃ n, m = n + 1 := ⟨m - 1, by omega⟩
  have hmid : pyrange 0 (((n + 1 : Nat) : Int) - 1)
      = List.map ((fun (k : Nat) => -1 + (k : Int)) ∘ Nat.succ) (List.range n) := by
    rw [pyrange, show ((((n + 1 : Nat)) : Int) - 1 - 0).toNat = n from by omega]
    apply List.map_congr_left
    intro a _
    simp only [Function.comp_apply]
    push_cast
    ring
  rw [pyrange_natCast, show n + 1 + 1 = n + 2 from by omega, List.range_succ_eq_map,
    List.range_succ]
  simp only [List.map_cons, List.map_map, List.map_append, List.map_nil, List.cons_append,
    List.nil_append]
  rw [hmid, List.cons_eq_cons]
  constructor
  · norm_num
  · rw [List.append_cancel_left_eq, List.cons_eq_cons]
    constructor
    · push_cast
      ring
    · rfl

/-- The total number of qualifying seeds is `d^2 - 1`. -/
theorem seeds_total (m : Nat) (hm : 1 ≤ m) :
    List.countP (fun p => seedOK (m : Int) p.1 p.2) (seeds (m : Int)) = m ^ 2 - 1 := by
  rw [countP_seeds_eq]
  nth_rewrite 2 [pyrange_split m hm]
  simp only [List.map_cons, List.map_append, List.map_nil, List.sum_cons,
    List.sum_append, List.sum_nil]
  rw [rowA_total m hm (-1) rfl, rowC_total m hm ((m : Int) - 1) rfl]
  have hmid : ∀ y ∈ pyrange 0 ((m : Int) - 1),
      (fun y => List.countP (fun x => seedOK (m : Int) x y) (pyrange (-1) (m : Int))) y
        = (fun (_ : Int) => m) y := by
    intro y hy
    rw [mem_pyrange] at hy
    exact rowMid_total m y hy.1 (by omega)
  rw [List.map_congr_left hmid, List.map_const', List.sum_replicate, smul_eq_mul,
    show (pyrange 0 ((m : Int) - 1)).length = m - 1 from by
      simp only [pyrange, List.length_map, List.length_range]
      omega]
  obtain ⟨k, rfl⟩ : ∃ k, m = k + 1 := ⟨m - 1, by omega⟩
  have hp : (k + 1) ^ 2 = k * (k + 1) + (k + 1) := by ring
  rw [hp, show k + 1 - 1 = k from by omega]
  obtain ⟨q, hq⟩ : ∃ q, k * (k + 1) = q := ⟨_, rfl⟩
  rw [hq]
  omega

/-- For odd `d`, the number of qualifying Z-type seeds is `(d^2 - 1) / 2`. -/
theorem zseeds_total (m : Nat) (hodd : m % 2 = 1) :
    List.countP (fun p => seedOK (m : Int) p.1 p.2 && !(isX p.1 p.2)) (seeds (m : Int))
      = (m ^ 2 - 1) / 2 := by
  have hm : 1 ≤ m := by omega
  rw [countP_seeds_eq]
  nth_rewrite 2 [pyrange_split m hm]
  simp only [List.map_cons, List.map_append, List.map_nil, List.sum_cons,
    List.sum_append, List.sum_nil]
  rw [rowA_z m hm (-1) rfl, rowC_z m hodd ((m : Int) - 1) rfl]
  have hmid : ∀ y ∈ pyrange 0 ((m : Int) - 1),
      (fun y => List.countP (fun x => seedOK (m : Int) x y && !(isX x y))
          (pyrange (-1) (m : Int))) y
        = (fun (_ : Int) => (m - 1) / 2 + 1) y := by
    intro y hy
    rw [mem_pyrange] at hy
    exact rowMid_z m hodd y hy.1 (by omega)
  rw [List.map_congr_left hmid, List.map_const', List.sum_replicate, smul_eq_mul,
    show (pyrange 0 ((m : Int) - 1)).length = m - 1 from by
      simp only [pyrange, List.length_map, List.length_range]
      omega]
  obtain ⟨e, rfl⟩ : ∃ e, m = 2 * e + 1 := ⟨m / 2, by omega⟩
  have h1 : (2 * e + 1) ^ 2 = 4 * (e * (e + 1)) + 1 := by ring
  have h2 : 2 * e + 1 - 1 = 2 * e := by omega
  have h3 : (2 * e) / 2 + 1 = e + 1 := by omega
  rw [h1, h2, h3, show 2 * e * (e + 1) = 2 * (e * (e + 1)) from by ring]
  obtain ⟨q, hq⟩ : ∃ q, e * (e + 1) = q := ⟨_, rfl⟩
  rw [hq]
  omega

/-!
Section: Claims C2 and C10: the plaquette counts
-/

theorem plaq_count_total (d : Nat) (hd : 1 ≤ d) :
    (xplaqs (d : Int)).length + (zplaqs (d : Int)).length = d ^ 2 - 1 := by
  have hx : (xplaqs (d : Int)).length
      = List.countP (fun p => seedOK (d : Int) p.1 p.2 && isX p.1 p.2) (seeds (d : Int)) := by
    rw [xplaqs, List.length_map, xseeds, ← List.countP_eq_length_filter]
  have hz : (zplaqs (d : Int)).length
      = List.countP (fun p => seedOK (d : Int) p.1 p.2 && !(isX p.1 p.2)) (seeds (d : Int)) := by
    rw [zplaqs, List.length_map, zseeds, ← List.countP_eq_length_filter]
  rw [hx, hz, countP_partition, seeds_total d hd]

/-- Claim C2: for every `d >= 1` the numbers of X and Z plaquettes returned by
`_get_plaquettes` add up to `d^2 - 1`. -/
theorem claim2_plaquette_count (d : Nat) (hd : 1 ≤ d) :
    (xplaqs (d : Int)).length + (zplaqs (d : Int)).length = d ^ 2 - 1 :=
  plaq_count_total d hd

/-- Witness for C2 at `d = 3`: `4 + 4 = 8`. -/
theorem claim2_plaquette_count_witness :
    (1 : Nat) ≤ 3 ∧
    (xplaqs ((3 : Nat) : Int)).length + (zplaqs ((3 : Nat) : Int)).length = 3 ^ 2 - 1 :=
  ⟨by norm_num, claim2_plaquette_count 3 (by norm_num)⟩

/-- Claim C10: for every odd `d`, `_get_plaquettes` returns exactly `(d^2 - 1) / 2`
Z plaquettes and `(d^2 - 1) / 2` X plaquettes, matching the register width
`_num_xy = int((d**2 - 1) / 2)` used by `syndrome_measurement`. -/
theorem claim10_plaquettes_match_num_xy (d : Nat) (hodd : d % 2 = 1) :
    ((zplaqs (d : Int)).length : Int) = num_xy (d : Int) ∧
    ((xplaqs (d : Int)).length : Int) = num_xy (d : Int) := by
  have hd : 1 ≤ d := by omega
  have hz0 : (zplaqs (d : Int)).length = (d ^ 2 - 1) / 2 := by
    rw [zplaqs, List.length_map, zseeds, ← List.countP_eq_length_filter]
    exact zseeds_total d hodd
  have htot := plaq_count_total d hd
  have hx0 : (xplaqs (d : Int)).length = (d ^ 2 - 1) / 2 := by
    obtain ⟨e, rfl⟩ : ∃ e, d = 2 * e + 1 := ⟨d / 2, by omega⟩
    have h1 : (2 * e + 1) ^ 2 = 4 * (e * (e + 1)) + 1 := by ring
    rw [h1] at htot hz0 ⊢
    obtain ⟨q, hq⟩ : ∃ q, e * (e + 1) = q := ⟨_, rfl⟩
    rw [hq] at htot hz0 ⊢
    omega
  have hbridge : num_xy (d : Int) = (((d ^ 2 - 1) / 2 : Nat) : Int) := by
    unfold num_xy
    have h1 : ((d : Int) ^ 2 - 1) = ((d ^ 2 - 1 : Nat) : Int) := by
      rw [Nat.cast_sub (Nat.one_le_pow 2 d (by omega))]
      push_cast
      ring
    rw [h1, show (2 : Int) = ((2 : Nat) : Int) from by norm_num, ← Int.ofNat_tdiv]
  rw [hz0, hx0, hbridge]
  exact ⟨rfl, rfl⟩

/-- Witness for C10 at `d = 3`: both collections have `4 = int((9 - 1)/2)`
plaquettes. -/
theorem claim10_plaquettes_match_num_xy_witness :
    (3 : Nat) % 2 = 1 ∧
    ((zplaqs ((3 : Nat) : Int)).length : Int) = num_xy ((3 : Nat) : Int) ∧
    ((xplaqs ((3 : Nat) : Int)).length : Int) = num_xy ((3 : Nat) : Int) :=
  ⟨by norm_num, claim10_plaquettes_match_num_xy 3 (by norm_num)⟩
